import Mathlib

/-!
Verification development for a terminal Mastermind game (`mastermind.py`).

The program is shallowly embedded: the `Peg` colour hierarchy becomes an
enumerated type (the source compares pegs by `colorName` only), the two hint
classes become a two-constructor type, Python lists become `List`, and every
Python indexing operation that can raise `IndexError` is modelled with
`Option` (a `none` result models an uncaught exception).  The scoring
routine `calcHints`, the win test `isCorrect`, the round loop of
`Mastermind.playRound`, the input decoding `getPegsFromGuess` and the reveal
flag of `TargetPegs` are all embedded below.  A second family of
definitions (`specPass1`, `specScan`, `specPass2`, `specScore`) transcribes
the two-pass scoring algorithm exactly as the design document words it, and
the two are related by simulation theorems.
-/

/-- The six peg colours.  In the source each colour is a subclass of `Peg`
carrying only a `colorName`; equality is by colour name, so the hierarchy is
an enumerated type. -/
inductive Peg where
  | red
  | blue
  | green
  | yellow
  | black
  | white
deriving DecidableEq, Fintype

/-- `Peg.getPeg`: the static factory decoding a single character into a peg,
`None` for an unknown character. -/
def Peg.getPeg (pegChar : Char) : Option Peg :=
  if pegChar = 'R' then some Peg.red
  else if pegChar = 'U' then some Peg.blue
  else if pegChar = 'G' then some Peg.green
  else if pegChar = 'B' then some Peg.black
  else if pegChar = 'W' then some Peg.white
  else if pegChar = 'Y' then some Peg.yellow
  else none

/-- The two hint kinds (`RightColorRightPlace`, `RightColorWrongPlace`). -/
inductive Hint where
  | rightColorRightPlace
  | rightColorWrongPlace
deriving DecidableEq

/-- `TargetPegs`: the secret peg sequence together with the reveal flag. -/
structure TargetPegs where
  pegs : List Peg
  revealPegs : Bool
deriving DecidableEq

/-- `TargetPegs.setRevealPegs`: sets the reveal flag (`self.revealPegs = True`). -/
def TargetPegs.setRevealPegs (t : TargetPegs) : TargetPegs :=
  { t with revealPegs := true }

/-- A `Guess` line on the board: its pegs, its printed number, its hints. -/
structure Guess where
  pegs : List Peg
  number : Nat
  hints : List Hint
deriving DecidableEq

/-- `Guess.isCorrect`: `False` when the hint count differs from the peg
count, `False` when some hint is a `RightColorWrongPlace`, else `True`. -/
def Guess.isCorrect (g : Guess) : Bool :=
  if g.hints.length = g.pegs.length then
    g.hints.all fun h => !(h == Hint.rightColorWrongPlace)
  else false

/-- Assignment `l[i] = a` on a Python list: `none` models the `IndexError`
raised when `i` is out of range. -/
def listSet {α : Type} : List α → Nat → α → Option (List α)
  | [], _, _ => none
  | _ :: xs, 0, a => some (a :: xs)
  | x :: xs, n + 1, a =>
    match listSet xs n a with
    | none => none
    | some ys => some (x :: ys)

/-- First loop of `Guess.calcHints` (`# Find Right Color, Right Location`):
for each index `i` of the guess, if `pegs[i] == targetPegs[i]`, append a
`RightColorRightPlace` hint and mark `targetTaken[i]` and `guessIsUsed[i]`.
State: `(hints, targetTaken, guessIsUsed)`; each indexing is `Option`al. -/
def pass1 (p t : List Peg) : List Nat → List Hint × List Bool × List Bool →
    Option (List Hint × List Bool × List Bool)
  | [], st => some st
  | i :: is, (h, tk, us) =>
    match p[i]? with
    | none => none
    | some gp =>
      match t[i]? with
      | none => none
      | some tp =>
        if gp = tp then
          match listSet tk i true with
          | none => none
          | some tk' =>
            match listSet us i true with
            | none => none
            | some us' => pass1 p t is (h ++ [Hint.rightColorRightPlace], tk', us')
        else pass1 p t is (h, tk, us)

/-- Inner loop of the second pass of `Guess.calcHints`: scan indices `j`,
skip taken target positions, and at the first untaken `j` with
`currGuessPeg == targetPegs[j]` mark it taken and stop (`break`).  Returns
the updated `targetTaken` array and whether a colour match was found. -/
def pass2Scan (g : Peg) (t : List Peg) (tk : List Bool) :
    List Nat → Option (List Bool × Bool)
  | [] => some (tk, false)
  | j :: js =>
    match tk[j]? with
    | none => none
    | some b =>
      if b then pass2Scan g t tk js
      else
        match t[j]? with
        | none => none
        | some tc =>
          if g = tc then
            match listSet tk j true with
            | none => none
            | some tk' => some (tk', true)
          else pass2Scan g t tk js

/-- Second loop of `Guess.calcHints` (`# Fine Remaining Colors, Wrong
Location`): for each guess index `i` not yet used, scan the target positions
(`for j in range(len(self.pegs))`, i.e. over the guess length) and append a
`RightColorWrongPlace` hint when the scan finds a colour match. -/
def pass2 (p t : List Peg) : List Nat → List Hint × List Bool × List Bool →
    Option (List Hint × List Bool)
  | [], (h, tk, _) => some (h, tk)
  | i :: is, (h, tk, us) =>
    match p[i]? with
    | none => none
    | some gp =>
      match us[i]? with
      | none => none
      | some u =>
        if u then pass2 p t is (h, tk, us)
        else
          match pass2Scan gp t tk (List.range p.length) with
          | none => none
          | some (tk', found) =>
            if found then pass2 p t is (h ++ [Hint.rightColorWrongPlace], tk', us)
            else pass2 p t is (h, tk', us)

/-- `Guess.calcHints`: the bookkeeping arrays `targetTaken` and
`guessIsUsed` are the literal four-element lists of the source, pass 1 runs
to completion over `range(len(self.pegs))`, then pass 2 runs over the same
range; `none` models an uncaught `IndexError`. -/
def calcHints (pegs targetPegs : List Peg) : Option (List Hint) :=
  match pass1 pegs targetPegs (List.range pegs.length)
      ([], [false, false, false, false], [false, false, false, false]) with
  | none => none
  | some st =>
    match pass2 pegs targetPegs (List.range pegs.length) st with
    | none => none
    | some (h, _) => some h

/-- Which terminal branch of `Mastermind.playRound` fired on a step. -/
inductive Outcome where
  | inProgress
  | won
  | lost
deriving DecidableEq

/-- The `Mastermind` game state: secret container, guess slots, budget,
done flag, plus the loop variable `currGuessNum` of `playRound`. -/
structure Mastermind where
  targetPegs : TargetPegs
  guesses : List Guess
  totalGuesses : Nat
  isDone : Bool
  currGuessNum : Nat
deriving DecidableEq

/-- `Mastermind.__init__` with the secret supplied (the source draws four
random pegs; `TargetPegs` also accepts an explicit peg list): twelve empty
guess slots numbered `totalGuesses - i`, budget 12, reveal flag off, and
`currGuessNum = 1` as set at the top of `playRound`. -/
def mkMastermind (secret : List Peg) : Mastermind :=
  { targetPegs := ⟨secret, false⟩
    guesses := (List.range 12).map fun i => ⟨[], 12 - i, []⟩
    totalGuesses := 12
    isDone := false
    currGuessNum := 1 }

/-- Python negative indexing `l[-n]`: index `len - n` when `1 ≤ n ≤ len`,
index `0` when `n = 0`, `IndexError` otherwise. -/
def pyNegIdx (len n : Nat) : Option Nat :=
  if n = 0 then (if 0 < len then some 0 else none)
  else if n ≤ len then some (len - n) else none

/-- One iteration of the `while not self.isDone` loop of
`Mastermind.playRound`, given the pegs returned by `getPlayerGuess`:
`currGuess = self.guesses[-currGuessNum]`, `setPegs`, `calcHints` (which
appends to the slot's existing hints), `currGuessNum += 1`, then the
win / out-of-guesses / continue branches. -/
def playStep (s : Mastermind) (guessPegs : List Peg) :
    Option (Mastermind × Outcome) :=
  match pyNegIdx s.guesses.length s.currGuessNum with
  | none => none
  | some idx =>
    match s.guesses[idx]? with
    | none => none
    | some currGuess =>
      match calcHints guessPegs s.targetPegs.pegs with
      | none => none
      | some newHints =>
        let currGuess' : Guess :=
          { pegs := guessPegs, number := currGuess.number,
            hints := currGuess.hints ++ newHints }
        let guesses' := s.guesses.set idx currGuess'
        let n' := s.currGuessNum + 1
        let sDone : Mastermind :=
          { s with
            guesses := guesses'
            currGuessNum := n'
            targetPegs := s.targetPegs.setRevealPegs
            isDone := true }
        let sNext : Mastermind :=
          { s with guesses := guesses', currGuessNum := n' }
        if currGuess'.isCorrect then some (sDone, Outcome.won)
        else if s.totalGuesses < n' then some (sDone, Outcome.lost)
        else some (sNext, Outcome.inProgress)

/-- The `playRound` loop driven by a list of already-decoded guesses: run
`playStep` on each in turn until `isDone`; if inputs run out first the round
is still in progress (the real loop would block for more input). -/
def runRound : Mastermind → List (List Peg) → Option (Mastermind × Outcome)
  | s, [] => some (s, Outcome.inProgress)
  | s, g :: gs =>
    match playStep s g with
    | none => none
    | some (s', o) => if s'.isDone then some (s', o) else runRound s' gs

/-- `Mastermind.getPegsFromGuess`: decode a string of peg characters,
`None` as soon as a character is not a valid colour code. -/
def getPegsFromGuess : List Char → Option (List Peg)
  | [] => some []
  | c :: cs =>
    match Peg.getPeg c with
    | none => none
    | some p =>
      match getPegsFromGuess cs with
      | none => none
      | some ps => some (p :: ps)

/-- One iteration of the `getPlayerGuess` prompt loop on a (stripped,
upper-cased) input line: the literal `"SHOW"` sets the reveal flag, then the
line is decoded; a failed decode or an empty peg list keeps looping
(returns `none`), anything else is the accepted guess. -/
def getPlayerGuessStep (s : Mastermind) (userInput : String) :
    Mastermind × Option (List Peg) :=
  let s' := if userInput = "SHOW" then
    { s with targetPegs := s.targetPegs.setRevealPegs } else s
  match getPegsFromGuess userInput.toList with
  | none => (s', none)
  | some [] => (s', none)
  | some ps => (s', some ps)

/-- Pass 1 of the scoring algorithm as the design document words it: for
each position, if guess and secret agree there, record an exact match and
mark both sides consumed.  Returns the exact count together with the
consumed marks of the guess side and of the secret side (walking the two
sequences in parallel realises "for each position i from 0 to N-1"). -/
def specPass1 : List Peg → List Peg → Nat × List Bool × List Bool
  | g :: gs, s :: ss =>
    let r := specPass1 gs ss
    if g = s then (r.1 + 1, true :: r.2.1, true :: r.2.2)
    else (r.1, false :: r.2.1, false :: r.2.2)
  | _, _ => (0, [], [])

/-- Pass 2 inner scan as the design document words it: scan the secret
positions in left-to-right order for the first unconsumed position holding
a token of the guessed colour; consume it (first-fit, no backtracking).
`none` when no such position exists. -/
def specScan (g : Peg) : List Bool → List Peg → Option (List Bool)
  | b :: bs, c :: cs =>
    if b then
      match specScan g bs cs with
      | none => none
      | some r => some (true :: r)
    else if g = c then some (true :: bs)
    else
      match specScan g bs cs with
      | none => none
      | some r => some (false :: r)
  | _, _ => none

/-- Pass 2 of the scoring algorithm as the design document words it: for
each guess position not consumed by pass 1, in left-to-right order, run the
first-fit scan over the secret's consumed marks and count a colour-only
match whenever it succeeds. -/
def specPass2 : List Peg → List Bool → List Bool → List Peg → Nat × List Bool
  | g :: gs, u :: us, tk, t =>
    if u then specPass2 gs us tk t
    else
      match specScan g tk t with
      | some tk' =>
        let r := specPass2 gs us tk' t
        (r.1 + 1, r.2)
      | none => specPass2 gs us tk t
  | _, _, tk, _ => (0, tk)

/-- The scoring algorithm of the design document: exact count from pass 1,
colour-only count from pass 2 run on the consumed marks pass 1 left. -/
def specScore (p t : List Peg) : Nat × Nat :=
  let r := specPass1 p t
  (r.1, (specPass2 p r.2.1 r.2.2 t).1)

/-- The colours at the unconsumed positions of a marked sequence. -/
def remColors : List Bool → List Peg → List Peg
  | b :: bs, c :: cs => if b then remColors bs cs else c :: remColors bs cs
  | _, _ => []

/-- First-fit colour matching on the leftover colour lists: each guess
colour consumes the first remaining equal secret colour, if any. -/
def firstFitCount : List Peg → List Peg → Nat
  | [], _ => 0
  | g :: gs, sec =>
    if g ∈ sec then firstFitCount gs (sec.erase g) + 1
    else firstFitCount gs sec

/-- The secret tokens at positions where guess and secret disagree. -/
def nonExactSecret (p t : List Peg) : List Peg :=
  (p.zip t).filterMap fun x => if x.1 = x.2 then none else some x.2

/-- The guess tokens at positions where guess and secret disagree. -/
def nonExactGuess (p t : List Peg) : List Peg :=
  (p.zip t).filterMap fun x => if x.1 = x.2 then none else some x.1

/-! ### Basic helper lemmas -/

theorem listSet_append {α : Type} (A : List α) (b : α) (B : List α) (x : α) :
    listSet (A ++ b :: B) A.length x = some (A ++ x :: B) := by
  induction A with
  | nil => rfl
  | cons a A ih => simp [listSet, ih]

theorem getElem_append_mid {α : Type} (A : List α) (b : α) (B : List α) :
    (A ++ b :: B)[A.length]? = some b := by
  induction A with
  | nil => simp
  | cons a A ih => simpa using ih

theorem listSet_length {α : Type} :
    ∀ (l : List α) (i : Nat) (x : α) (l' : List α),
      listSet l i x = some l' → l'.length = l.length
  | [], _, _, _ => by intro h; cases h
  | _ :: xs, 0, x, l' => by
    intro h
    cases h
    simp
  | a :: xs, n + 1, x, l' => by
    intro h
    simp only [listSet] at h
    cases hrec : listSet xs n x with
    | none => rw [hrec] at h; cases h
    | some ys =>
      rw [hrec] at h
      cases h
      simpa using listSet_length xs n x ys hrec

theorem listSet_isSome {α : Type} :
    ∀ (l : List α) (i : Nat) (x : α), i < l.length →
      listSet l i x = some (l.set i x)
  | [], i, x => by intro h; cases h
  | a :: xs, 0, x => by intro _; rfl
  | a :: xs, n + 1, x => by
    intro h
    simp only [listSet, List.set]
    rw [listSet_isSome xs n x (by simpa using h)]

/-- Counting the two hint kinds in a `replicate`-`append` hint list. -/
theorem hint_counts (e c : Nat) :
    (List.replicate e Hint.rightColorRightPlace ++
      List.replicate c Hint.rightColorWrongPlace).count Hint.rightColorRightPlace = e ∧
    (List.replicate e Hint.rightColorRightPlace ++
      List.replicate c Hint.rightColorWrongPlace).count Hint.rightColorWrongPlace = c ∧
    (List.replicate e Hint.rightColorRightPlace ++
      List.replicate c Hint.rightColorWrongPlace).length = e + c := by
  refine ⟨?_, ?_, by simp⟩
  · simp [List.count_append, List.count_replicate]
  · simp [List.count_append, List.count_replicate]

/-! ### Simulation of pass 1 against the spec's exact pass -/

theorem pass1_sim (p t : List Peg) :
    ∀ (P2 : List Peg) (T2 : List Peg) (P1 T1 : List Peg) (h : List Hint)
      (tkA usA : List Bool) (tkB usB : List Bool),
      p = P1 ++ P2 → t = T1 ++ T2 → P1.length = T1.length →
      tkA.length = P1.length → usA.length = P1.length →
      P2.length ≤ T2.length →
      pass1 p t (List.range' P1.length P2.length)
        (h, tkA ++ List.replicate P2.length false ++ tkB,
          usA ++ List.replicate P2.length false ++ usB)
      = some (h ++ List.replicate (specPass1 P2 T2).1 Hint.rightColorRightPlace,
          tkA ++ (specPass1 P2 T2).2.2 ++ tkB,
          usA ++ (specPass1 P2 T2).2.1 ++ usB) := by
  intro P2
  induction P2 with
  | nil =>
    intro T2 P1 T1 h tkA usA tkB usB _ _ _ _ _ _
    simp [pass1, specPass1]
  | cons p0 P2 ih =>
    intro T2 P1 T1 h tkA usA tkB usB hp ht hlen htkA husA hle
    cases T2 with
    | nil => simp at hle
    | cons t0 T2 =>
      have e1 : p[P1.length]? = some p0 := by
        rw [hp]; exact getElem_append_mid _ _ _
      have e2 : t[P1.length]? = some t0 := by
        rw [ht, hlen]; exact getElem_append_mid _ _ _
      have hshape : ∀ (X Y : List Bool),
          X ++ List.replicate (P2.length + 1) false ++ Y =
            X ++ false :: (List.replicate P2.length false ++ Y) := by
        intro X Y; simp [List.replicate_succ]
      simp only [List.length_cons]
      rw [List.range'_succ]
      simp only [pass1, e1, e2]
      by_cases hpt : p0 = t0
      · rw [if_pos hpt]
        have s1 : listSet (tkA ++ List.replicate (P2.length + 1) false ++ tkB)
            P1.length true
            = some (tkA ++ true :: (List.replicate P2.length false ++ tkB)) := by
          rw [hshape, ← htkA]; exact listSet_append _ _ _ _
        have s2 : listSet (usA ++ List.replicate (P2.length + 1) false ++ usB)
            P1.length true
            = some (usA ++ true :: (List.replicate P2.length false ++ usB)) := by
          rw [hshape, ← husA]; exact listSet_append _ _ _ _
        simp only [s1, s2]
        have rec := ih T2 (P1 ++ [p0]) (T1 ++ [t0])
          (h ++ [Hint.rightColorRightPlace]) (tkA ++ [true]) (usA ++ [true])
          tkB usB (by simp [hp]) (by simp [ht]) (by simp [hlen])
          (by simp [htkA]) (by simp [husA]) (by simpa using hle)
        simpa [specPass1, hpt, List.replicate_succ, List.append_assoc] using rec
      · rw [if_neg hpt]
        rw [hshape tkA tkB, hshape usA usB]
        have rec := ih T2 (P1 ++ [p0]) (T1 ++ [t0]) h
          (tkA ++ [false]) (usA ++ [false])
          tkB usB (by simp [hp]) (by simp [ht]) (by simp [hlen])
          (by simp [htkA]) (by simp [husA]) (by simpa using hle)
        simpa [specPass1, hpt, List.replicate_succ, List.append_assoc] using rec

/-! ### Simulation of the pass-2 scan and of pass 2 -/

theorem specScan_length (g : Peg) :
    ∀ (tk : List Bool) (t : List Peg) (r : List Bool),
      specScan g tk t = some r → r.length = tk.length
  | [], t, r => by intro h; cases h
  | b :: bs, [], r => by intro h; cases h
  | b :: bs, c :: cs, r => by
    intro h
    simp only [specScan] at h
    by_cases hb : b = true
    · rw [if_pos hb] at h
      cases hrec : specScan g bs cs with
      | none => rw [hrec] at h; cases h
      | some r' =>
        rw [hrec] at h
        cases h
        simpa using specScan_length g bs cs r' hrec
    · rw [if_neg hb] at h
      by_cases hg : g = c
      · rw [if_pos hg] at h
        cases h
        simp
      · rw [if_neg hg] at h
        cases hrec : specScan g bs cs with
        | none => rw [hrec] at h; cases h
        | some r' =>
          rw [hrec] at h
          cases h
          simpa using specScan_length g bs cs r' hrec

theorem scan_sim (g : Peg) (t : List Peg) (tk : List Bool) :
    ∀ (TK2 : List Bool) (T2 : List Peg) (TK1 : List Bool) (T1 : List Peg),
      tk = TK1 ++ TK2 → t = T1 ++ T2 → TK1.length = T1.length →
      TK2.length = T2.length →
      pass2Scan g t tk (List.range' TK1.length TK2.length)
      = some (match specScan g TK2 T2 with
              | some r => (TK1 ++ r, true)
              | none => (tk, false)) := by
  intro TK2
  induction TK2 with
  | nil =>
    intro T2 TK1 T1 htk ht hlen hlen2
    have : T2 = [] := by
      cases T2 with
      | nil => rfl
      | cons a b => simp at hlen2
    subst this
    simp [pass2Scan, specScan]
  | cons b TK2 ih =>
    intro T2 TK1 T1 htk ht hlen hlen2
    cases T2 with
    | nil => simp at hlen2
    | cons t0 T2 =>
      have e1 : tk[TK1.length]? = some b := by
        rw [htk]; exact getElem_append_mid _ _ _
      have e2 : t[TK1.length]? = some t0 := by
        rw [ht, hlen]; exact getElem_append_mid _ _ _
      simp only [List.length_cons]
      rw [List.range'_succ]
      simp only [pass2Scan, e1, e2]
      cases b with
      | true =>
        simp only [if_pos]
        have rec := ih T2 (TK1 ++ [true]) (T1 ++ [t0])
          (by simp [htk]) (by simp [ht]) (by simp [hlen]) (by simpa using hlen2)
        rw [show (TK1 ++ [true]).length = TK1.length + 1 by simp] at rec
        rw [rec]
        cases hscan : specScan g TK2 T2 with
        | none => simp [specScan, hscan]
        | some r => simp [specScan, hscan, List.append_assoc]
      | false =>
        simp only [Bool.false_eq_true, if_false]
        by_cases hg : g = t0
        · rw [if_pos hg]
          have s1 : listSet tk TK1.length true = some (TK1 ++ true :: TK2) := by
            rw [htk]; exact listSet_append _ _ _ _
          rw [s1]
          simp [specScan, hg]
        · rw [if_neg hg]
          have rec := ih T2 (TK1 ++ [false]) (T1 ++ [t0])
            (by simp [htk]) (by simp [ht]) (by simp [hlen]) (by simpa using hlen2)
          rw [show (TK1 ++ [false]).length = TK1.length + 1 by simp] at rec
          rw [rec]
          cases hscan : specScan g TK2 T2 with
          | none => simp [specScan, hscan, hg]
          | some r => simp [specScan, hscan, hg, List.append_assoc]

theorem pass2_sim (p t : List Peg) :
    ∀ (P2 : List Peg) (US2 : List Bool) (P1 : List Peg) (US1 : List Bool)
      (h : List Hint) (tk : List Bool),
      p = P1 ++ P2 → P1.length = US1.length → P2.length = US2.length →
      tk.length = p.length → t.length = p.length →
      pass2 p t (List.range' P1.length P2.length) (h, tk, US1 ++ US2)
      = some (h ++ List.replicate (specPass2 P2 US2 tk t).1 Hint.rightColorWrongPlace,
          (specPass2 P2 US2 tk t).2) := by
  intro P2
  induction P2 with
  | nil =>
    intro US2 P1 US1 h tk hp hlen hlen2 htk ht
    have : US2 = [] := by
      cases US2 with
      | nil => rfl
      | cons a b => simp at hlen2
    subst this
    simp [pass2, specPass2]
  | cons p0 P2 ih =>
    intro US2 P1 US1 h tk hp hlen hlen2 htk ht
    cases US2 with
    | nil => simp at hlen2
    | cons u US2 =>
      have e1 : p[P1.length]? = some p0 := by
        rw [hp]; exact getElem_append_mid _ _ _
      have e2 : (US1 ++ u :: US2)[P1.length]? = some u := by
        rw [hlen]; exact getElem_append_mid _ _ _
      simp only [List.length_cons]
      rw [List.range'_succ]
      simp only [pass2, e1, e2]
      cases u with
      | true =>
        simp only [if_pos]
        have rec := ih US2 (P1 ++ [p0]) (US1 ++ [true]) h tk
          (by simp [hp]) (by simp [hlen]) (by simpa using hlen2)
          htk ht
        rw [show (P1 ++ [p0]).length = P1.length + 1 by simp] at rec
        rw [show (US1 ++ [true]) ++ US2 = US1 ++ true :: US2 by simp] at rec
        rw [rec]
        simp [specPass2]
      | false =>
        simp only [Bool.false_eq_true, if_false]
        have hscan := scan_sim p0 t tk tk t [] []
          (by simp) (by simp) (by simp) (by rw [htk, ht])
        simp only [List.length_nil, htk] at hscan
        rw [← List.range_eq_range'] at hscan
        rw [hscan]
        cases hsc : specScan p0 tk t with
        | some tk' =>
          simp only [hsc, List.nil_append]
          have rec := ih US2 (P1 ++ [p0]) (US1 ++ [false])
            (h ++ [Hint.rightColorWrongPlace]) tk'
            (by simp [hp]) (by simp [hlen]) (by simpa using hlen2)
            (by rw [specScan_length p0 tk t tk' hsc, htk]) ht
          rw [show (P1 ++ [p0]).length = P1.length + 1 by simp] at rec
          rw [show (US1 ++ [false]) ++ US2 = US1 ++ false :: US2 by simp] at rec
          rw [rec]
          simp [specPass2, hsc, List.replicate_succ, List.append_assoc]
        | none =>
          simp only [hsc]
          have rec := ih US2 (P1 ++ [p0]) (US1 ++ [false]) h tk
            (by simp [hp]) (by simp [hlen]) (by simpa using hlen2)
            htk ht
          rw [show (P1 ++ [p0]).length = P1.length + 1 by simp] at rec
          rw [show (US1 ++ [false]) ++ US2 = US1 ++ false :: US2 by simp] at rec
          rw [rec]
          simp [specPass2, hsc]

theorem specPass1_len :
    ∀ (p t : List Peg), p.length ≤ t.length →
      (specPass1 p t).2.1.length = p.length ∧
      (specPass1 p t).2.2.length = p.length
  | [], t => by intro _; simp [specPass1]
  | p0 :: p, [] => by intro h; simp at h
  | p0 :: p, t0 :: t => by
    intro h
    have ih := specPass1_len p t (by simpa using h)
    by_cases hpt : p0 = t0
    · simp [specPass1, hpt, ih.1, ih.2]
    · simp [specPass1, hpt, ih.1, ih.2]

/-- The scoring routine of the source, on length-4 sequences, computes
exactly the two-pass algorithm of the design document: first all the exact
hints of the exact pass, then all the colour-only hints of the first-fit
colour pass. -/
theorem calcHints_spec (p t : List Peg) (hp : p.length = 4) (ht : t.length = 4) :
    calcHints p t
      = some (List.replicate (specScore p t).1 Hint.rightColorRightPlace ++
          List.replicate (specScore p t).2 Hint.rightColorWrongPlace) := by
  have h1 := pass1_sim p t p t [] [] [] [] [] [] []
    (by simp) (by simp) rfl rfl rfl (by omega)
  simp only [List.length_nil, List.nil_append, List.append_nil] at h1
  have hrep : List.replicate p.length false = [false, false, false, false] := by
    rw [hp]; rfl
  rw [hrep] at h1
  have hlen1 := specPass1_len p t (by omega)
  have h2 := pass2_sim p t p (specPass1 p t).2.1 [] []
    (List.replicate (specPass1 p t).1 Hint.rightColorRightPlace)
    (specPass1 p t).2.2
    (by simp) rfl hlen1.1.symm hlen1.2 (by omega)
  simp only [List.length_nil, List.nil_append] at h2
  unfold calcHints
  rw [List.range_eq_range']
  simp only [h1, h2]
  rfl

/-! ### Properties of the spec-side scoring passes -/

theorem specPass1_fst :
    ∀ (p t : List Peg), (specPass1 p t).1
      = (p.zip t).countP fun x => decide (x.1 = x.2)
  | [], t => by simp [specPass1]
  | p0 :: p, [] => by simp [specPass1]
  | p0 :: p, t0 :: t => by
    have ih := specPass1_fst p t
    by_cases hpt : p0 = t0
    · simp [specPass1, hpt, List.countP_cons, ih]
    · simp [specPass1, hpt, List.countP_cons, ih]

theorem specPass1_true_count :
    ∀ (p t : List Peg), (specPass1 p t).2.2.count true = (specPass1 p t).1
  | [], t => by simp [specPass1]
  | p0 :: p, [] => by simp [specPass1]
  | p0 :: p, t0 :: t => by
    have ih := specPass1_true_count p t
    by_cases hpt : p0 = t0
    · simp [specPass1, hpt, List.count_cons, ih]
    · simp [specPass1, hpt, List.count_cons, ih]

theorem count_true_false : ∀ (l : List Bool), l.count true + l.count false = l.length
  | [] => rfl
  | b :: l => by
    have ih := count_true_false l
    cases b <;> simp [List.count_cons] <;> omega

theorem remColors_length :
    ∀ (tk : List Bool) (t : List Peg), tk.length = t.length →
      (remColors tk t).length = tk.count false
  | [], t => by intro h; simp [remColors]
  | b :: bs, [] => by intro h; simp at h
  | b :: bs, c :: cs => by
    intro h
    have ih := remColors_length bs cs (by simpa using h)
    cases b <;> simp [remColors, List.count_cons, ih]

theorem firstFitCount_le :
    ∀ (gs sec : List Peg), firstFitCount gs sec ≤ sec.length
  | [], sec => by simp [firstFitCount]
  | g :: gs, sec => by
    by_cases hg : g ∈ sec
    · have ih := firstFitCount_le gs (sec.erase g)
      have h1 : (sec.erase g).length = sec.length - 1 := List.length_erase_of_mem hg
      have h2 : 0 < sec.length := List.length_pos.mpr (List.ne_nil_of_mem hg)
      simp only [firstFitCount, if_pos hg]
      omega
    · have ih := firstFitCount_le gs sec
      simp only [firstFitCount, if_neg hg]
      exact ih

theorem specScan_some (g : Peg) :
    ∀ (tk : List Bool) (t : List Peg) (tk' : List Bool),
      specScan g tk t = some tk' →
      g ∈ remColors tk t ∧ remColors tk' t = (remColors tk t).erase g
  | [], t, tk' => by intro h; cases h
  | b :: bs, [], tk' => by intro h; cases h
  | b :: bs, c :: cs, tk' => by
    intro h
    simp only [specScan] at h
    by_cases hb : b = true
    · rw [if_pos hb] at h
      cases hrec : specScan g bs cs with
      | none => rw [hrec] at h; cases h
      | some r =>
        rw [hrec] at h
        cases h
        have ih := specScan_some g bs cs r hrec
        subst hb
        simpa [remColors] using ih
    · rw [if_neg hb] at h
      have hb' : b = false := by
        cases b
        · rfl
        · exact absurd rfl hb
      subst hb'
      by_cases hg : g = c
      · rw [if_pos hg] at h
        cases h
        constructor
        · simp [remColors, hg]
        · simp [remColors, ← hg, List.erase_cons_head]
      · rw [if_neg hg] at h
        cases hrec : specScan g bs cs with
        | none => rw [hrec] at h; cases h
        | some r =>
          rw [hrec] at h
          cases h
          have ih := specScan_some g bs cs r hrec
          refine ⟨by simp [remColors, ih.1], ?_⟩
          have hne : ¬(c = g) := fun hh => hg hh.symm
          simp [remColors, List.erase_cons, hne, ih.2]

theorem specScan_none (g : Peg) :
    ∀ (tk : List Bool) (t : List Peg),
      specScan g tk t = none → g ∉ remColors tk t
  | [], t => by intro _; simp [remColors]
  | b :: bs, [] => by intro _; simp [remColors]
  | b :: bs, c :: cs => by
    intro h
    simp only [specScan] at h
    by_cases hb : b = true
    · rw [if_pos hb] at h
      cases hrec : specScan g bs cs with
      | none =>
        have ih := specScan_none g bs cs hrec
        subst hb
        simpa [remColors] using ih
      | some r => rw [hrec] at h; cases h
    · rw [if_neg hb] at h
      have hb' : b = false := by
        cases b
        · rfl
        · exact absurd rfl hb
      subst hb'
      by_cases hg : g = c
      · rw [if_pos hg] at h; cases h
      · rw [if_neg hg] at h
        cases hrec : specScan g bs cs with
        | none =>
          have ih := specScan_none g bs cs hrec
          simp [remColors, hg, ih]
        | some r => rw [hrec] at h; cases h

theorem specPass2_firstFit :
    ∀ (gs : List Peg) (us : List Bool) (tk : List Bool) (t : List Peg),
      (specPass2 gs us tk t).1
        = firstFitCount (remColors us gs) (remColors tk t)
  | [], us, tk, t => by
    cases us <;> simp [specPass2, remColors, firstFitCount]
  | g :: gs, [], tk, t => by simp [specPass2, remColors, firstFitCount]
  | g :: gs, u :: us, tk, t => by
    cases u with
    | true =>
      have ih := specPass2_firstFit gs us tk t
      simpa [specPass2, remColors] using ih
    | false =>
      cases hsc : specScan g tk t with
      | some tk' =>
        have ih := specPass2_firstFit gs us tk' t
        have hs := specScan_some g tk t tk' hsc
        have hrc : remColors (false :: us) (g :: gs) = g :: remColors us gs := by
          simp [remColors]
        have hff : firstFitCount (g :: remColors us gs) (remColors tk t)
            = firstFitCount (remColors us gs) ((remColors tk t).erase g) + 1 := by
          simp [firstFitCount, hs.1]
        simp only [specPass2, Bool.false_eq_true, if_false, hsc, hrc, hff]
        rw [← hs.2, ih]
      | none =>
        have ih := specPass2_firstFit gs us tk t
        have hs := specScan_none g tk t hsc
        simp [specPass2, hsc, remColors, firstFitCount, hs, ih]

theorem specScore_le (p t : List Peg) (hp : p.length = 4) (ht : t.length = 4) :
    (specScore p t).1 + (specScore p t).2 ≤ 4 := by
  have hlen := specPass1_len p t (by omega)
  have he : (specScore p t).1 = (specPass1 p t).2.2.count true :=
    (specPass1_true_count p t).symm
  have hc : (specScore p t).2
      = firstFitCount (remColors (specPass1 p t).2.1 p)
        (remColors (specPass1 p t).2.2 t) :=
    specPass2_firstFit p (specPass1 p t).2.1 (specPass1 p t).2.2 t
  have hle := firstFitCount_le (remColors (specPass1 p t).2.1 p)
    (remColors (specPass1 p t).2.2 t)
  have hrl : (remColors (specPass1 p t).2.2 t).length
      = (specPass1 p t).2.2.count false :=
    remColors_length _ t (by omega)
  have hcnt := count_true_false (specPass1 p t).2.2
  have hsl : (specPass1 p t).2.2.length = p.length := hlen.2
  omega

theorem isCorrect_char (pegs : List Peg) (num e c : Nat) (hp : pegs.length = 4)
    (hle : e + c ≤ 4) :
    (Guess.isCorrect ⟨pegs, num, List.replicate e Hint.rightColorRightPlace ++
      List.replicate c Hint.rightColorWrongPlace⟩ = true) ↔ e = 4 := by
  unfold Guess.isCorrect
  simp only [List.length_append, List.length_replicate, hp]
  by_cases hlen : e + c = 4
  · rw [if_pos hlen]
    rw [List.all_append]
    simp only [Bool.and_eq_true, List.all_eq_true, List.mem_replicate]
    constructor
    · rintro ⟨_, h2⟩
      by_cases hc : c = 0
      · omega
      · exfalso
        have := h2 Hint.rightColorWrongPlace ⟨hc, rfl⟩
        simp at this
    · intro he
      have hc : c = 0 := by omega
      subst hc
      refine ⟨fun x hx => by rw [hx.2]; rfl, fun x hx => by simp at hx⟩
  · rw [if_neg hlen]
    simp only [Bool.false_eq_true, false_iff]
    omega

/-- C1: on length-4 secret and guess sequences, `Guess.calcHints` computes
feedback by the specified two-pass algorithm: it returns exactly the exact
hints of the completed exact pass followed by the colour-only hints of the
left-to-right first-fit colour pass (`specScore` transcribes that
algorithm), and the exact count equals the number of positions where guess
and secret agree. -/
theorem calcHints_two_pass (p t : List Peg) (hp : p.length = 4)
    (ht : t.length = 4) :
    calcHints p t
      = some (List.replicate (specScore p t).1 Hint.rightColorRightPlace ++
          List.replicate (specScore p t).2 Hint.rightColorWrongPlace) ∧
    (specScore p t).1 = (p.zip t).countP fun x => decide (x.1 = x.2) :=
  ⟨calcHints_spec p t hp ht, specPass1_fst p t⟩

/-- Witness for C1 at a concrete secret and guess. -/
theorem calcHints_two_pass_w :
    calcHints [Peg.red, Peg.blue, Peg.green, Peg.yellow]
        [Peg.red, Peg.green, Peg.blue, Peg.white]
      = some (List.replicate
          (specScore [Peg.red, Peg.blue, Peg.green, Peg.yellow]
            [Peg.red, Peg.green, Peg.blue, Peg.white]).1 Hint.rightColorRightPlace ++
          List.replicate
          (specScore [Peg.red, Peg.blue, Peg.green, Peg.yellow]
            [Peg.red, Peg.green, Peg.blue, Peg.white]).2 Hint.rightColorWrongPlace) ∧
    (specScore [Peg.red, Peg.blue, Peg.green, Peg.yellow]
        [Peg.red, Peg.green, Peg.blue, Peg.white]).1
      = (([Peg.red, Peg.blue, Peg.green, Peg.yellow]).zip
          [Peg.red, Peg.green, Peg.blue, Peg.white]).countP
          fun x => decide (x.1 = x.2) :=
  calcHints_two_pass _ _ (by decide) (by decide)

/-- C2: on length-4 secret and guess sequences the feedback satisfies
`exact + colorOnly ≤ 4`, equivalently `calcHints` appends at most four
hints. -/
theorem calcHints_sum_le (p t : List Peg) (hp : p.length = 4)
    (ht : t.length = 4) :
    ∃ h, calcHints p t = some h ∧
      h.count Hint.rightColorRightPlace + h.count Hint.rightColorWrongPlace ≤ 4 ∧
      h.length ≤ 4 := by
  refine ⟨_, calcHints_spec p t hp ht, ?_, ?_⟩
  · have hc := hint_counts (specScore p t).1 (specScore p t).2
    have hs := specScore_le p t hp ht
    rw [hc.1, hc.2.1]
    exact hs
  · have hc := hint_counts (specScore p t).1 (specScore p t).2
    have hs := specScore_le p t hp ht
    rw [hc.2.2]
    exact hs

/-- Witness for C2 at a concrete secret and guess. -/
theorem calcHints_sum_le_w :
    ∃ h, calcHints [Peg.red, Peg.red, Peg.blue, Peg.green]
        [Peg.blue, Peg.blue, Peg.red, Peg.red] = some h ∧
      h.count Hint.rightColorRightPlace + h.count Hint.rightColorWrongPlace ≤ 4 ∧
      h.length ≤ 4 :=
  calcHints_sum_le _ _ (by decide) (by decide)

/-- C3: for secret `[Red, Red, Blue, Blue]` and guess `[Red, Red, Red, Red]`
the feedback is two exact matches and no colour-only match: both secret
Reds are consumed by the exact pass, so the extra guessed Reds gain no
colour-only credit. -/
theorem calcHints_duplicate_cap :
    (calcHints [Peg.red, Peg.red, Peg.red, Peg.red]
        [Peg.red, Peg.red, Peg.blue, Peg.blue]).map
        (fun h => (h.count Hint.rightColorRightPlace,
          h.count Hint.rightColorWrongPlace))
      = some (2, 0) := by decide

/-! ### Behaviour of `calcHints` on unequal lengths -/

theorem pass1_isSome (p t : List Peg) :
    ∀ (is : List Nat) (h : List Hint) (tk us : List Bool),
      (∀ i ∈ is, i < p.length ∧ i < t.length ∧ i < tk.length ∧ i < us.length) →
      ∃ r, pass1 p t is (h, tk, us) = some r ∧
        r.2.1.length = tk.length ∧ r.2.2.length = us.length := by
  intro is
  induction is with
  | nil =>
    intro h tk us _
    exact ⟨(h, tk, us), rfl, rfl, rfl⟩
  | cons i is ih =>
    intro h tk us hb
    obtain ⟨hip, hit, hitk, hius⟩ := hb i (List.mem_cons_self i is)
    have e1 : p[i]? = some p[i] := List.getElem?_eq_getElem hip
    have e2 : t[i]? = some t[i] := List.getElem?_eq_getElem hit
    simp only [pass1, e1, e2]
    by_cases hpt : p[i] = t[i]
    · rw [if_pos hpt]
      rw [listSet_isSome tk i true hitk, listSet_isSome us i true hius]
      obtain ⟨r, hr, l1, l2⟩ := ih (h ++ [Hint.rightColorRightPlace])
        (tk.set i true) (us.set i true)
        (by
          intro j hj
          have := hb j (List.mem_cons_of_mem _ hj)
          simpa [List.length_set] using this)
      refine ⟨r, hr, ?_, ?_⟩
      · rw [l1, List.length_set]
      · rw [l2, List.length_set]
    · rw [if_neg hpt]
      exact ih h tk us fun j hj => hb j (List.mem_cons_of_mem _ hj)

theorem pass2Scan_isSome (g : Peg) (t : List Peg) :
    ∀ (js : List Nat) (tk : List Bool),
      (∀ j ∈ js, j < tk.length ∧ j < t.length) →
      ∃ r, pass2Scan g t tk js = some r ∧ r.1.length = tk.length := by
  intro js
  induction js with
  | nil =>
    intro tk _
    exact ⟨(tk, false), rfl, rfl⟩
  | cons j js ih =>
    intro tk hb
    obtain ⟨hjtk, hjt⟩ := hb j (List.mem_cons_self j js)
    have e1 : tk[j]? = some tk[j] := List.getElem?_eq_getElem hjtk
    have e2 : t[j]? = some t[j] := List.getElem?_eq_getElem hjt
    simp only [pass2Scan, e1, e2]
    by_cases hbj : tk[j] = true
    · rw [if_pos hbj]
      exact ih tk fun i hi => hb i (List.mem_cons_of_mem _ hi)
    · rw [if_neg hbj]
      by_cases hg : g = t[j]
      · rw [if_pos hg]
        rw [listSet_isSome tk j true hjtk]
        exact ⟨(tk.set j true, true), rfl, List.length_set tk j true⟩
      · rw [if_neg hg]
        exact ih tk fun i hi => hb i (List.mem_cons_of_mem _ hi)

theorem pass2_isSome (p t : List Peg) :
    ∀ (is : List Nat) (h : List Hint) (tk us : List Bool),
      (∀ i ∈ is, i < p.length ∧ i < us.length) →
      (∀ j, j < p.length → j < tk.length ∧ j < t.length) →
      ∃ r, pass2 p t is (h, tk, us) = some r := by
  intro is
  induction is with
  | nil =>
    intro h tk us _ _
    exact ⟨(h, tk), rfl⟩
  | cons i is ih =>
    intro h tk us hb hscan
    obtain ⟨hip, hius⟩ := hb i (List.mem_cons_self i is)
    have e1 : p[i]? = some p[i] := List.getElem?_eq_getElem hip
    have e2 : us[i]? = some us[i] := List.getElem?_eq_getElem hius
    simp only [pass2, e1, e2]
    by_cases hu : us[i] = true
    · rw [if_pos hu]
      exact ih h tk us (fun j hj => hb j (List.mem_cons_of_mem _ hj)) hscan
    · rw [if_neg hu]
      obtain ⟨⟨tk', found⟩, hsc, hlen⟩ := pass2Scan_isSome p[i] t
        (List.range p.length) tk
        (by
          intro j hj
          exact hscan j (List.mem_range.mp hj))
      rw [hsc]
      have hscan' : ∀ j, j < p.length → j < tk'.length ∧ j < t.length := by
        intro j hj
        rw [hlen]
        exact hscan j hj
      cases found with
      | true =>
        simp only [if_pos]
        exact ih (h ++ [Hint.rightColorWrongPlace]) tk' us
          (fun j hj => hb j (List.mem_cons_of_mem _ hj)) hscan'
      | false =>
        simp only [Bool.false_eq_true, if_false]
        exact ih h tk' us (fun j hj => hb j (List.mem_cons_of_mem _ hj)) hscan'

theorem calcHints_isSome (p t : List Peg) (h4 : p.length ≤ 4)
    (hle : p.length ≤ t.length) : (calcHints p t).isSome := by
  unfold calcHints
  obtain ⟨⟨h1, tk1, us1⟩, e1, l1, l2⟩ := pass1_isSome p t (List.range p.length)
    [] [false, false, false, false] [false, false, false, false]
    (by
      intro i hi
      have hi' := List.mem_range.mp hi
      have h44 : ([false, false, false, false] : List Bool).length = 4 := rfl
      omega)
  have l1' : tk1.length = 4 := by simpa using l1
  have l2' : us1.length = 4 := by simpa using l2
  simp only [e1]
  obtain ⟨⟨h2, tk2⟩, e2⟩ := pass2_isSome p t (List.range p.length) h1 tk1 us1
    (by
      intro i hi
      have hi' := List.mem_range.mp hi
      omega)
    (by
      intro j hj
      omega)
  simp only [e2]
  rfl

theorem pass1_fail (p t : List Peg) :
    ∀ (is : List Nat) (st : List Hint × List Bool × List Bool),
      (∃ i ∈ is, t.length ≤ i ∧ i < p.length) →
      pass1 p t is st = none := by
  intro is
  induction is with
  | nil =>
    rintro st ⟨i, hi, _⟩
    simp at hi
  | cons a is ih =>
    rintro ⟨h, tk, us⟩ ⟨i, hi, hti, hip⟩
    rcases List.mem_cons.mp hi with rfl | hi'
    · have e1 : p[i]? = some p[i] := List.getElem?_eq_getElem hip
      have e2 : t[i]? = none := List.getElem?_eq_none hti
      simp [pass1, e1, e2]
    · simp only [pass1]
      cases hp : p[a]? with
      | none => rfl
      | some gp =>
        cases ht : t[a]? with
        | none => rfl
        | some tp =>
          by_cases hpt : gp = tp
          · simp only [if_pos hpt]
            cases hs1 : listSet tk a true with
            | none => rfl
            | some tk' =>
              cases hs2 : listSet us a true with
              | none => rfl
              | some us' => exact ih _ ⟨i, hi', hti, hip⟩
          · simp only [if_neg hpt]
            exact ih _ ⟨i, hi', hti, hip⟩

theorem calcHints_fail (p t : List Peg) (h : t.length < p.length) :
    calcHints p t = none := by
  unfold calcHints
  rw [pass1_fail p t (List.range p.length) _
    ⟨t.length, List.mem_range.mpr h, Nat.le_refl _, h⟩]

/-- C7 counterexample: called with a guess of length 1 and a secret of
length 4 (unequal lengths), `Guess.calcHints` does not fail with any
`LengthMismatch` error — it runs to completion and computes a colour-only
hint.  No length guard exists in the routine. -/
theorem calcHints_unequal_computes :
    calcHints [Peg.red] [Peg.red, Peg.blue, Peg.green, Peg.yellow]
      = some [Hint.rightColorRightPlace] := by decide

/-- C7 amended: `Guess.calcHints` performs no length check and has no
`LengthMismatch` error result.  A guess no longer than the secret and no
longer than the fixed board size 4 is scored successfully over the guess's
positions, while a guess longer than the secret hits an uncaught
`IndexError` (modelled as `none`) instead of returning an explicit error
value. -/
theorem calcHints_no_length_guard :
    (∀ p t : List Peg, p.length ≤ 4 → p.length ≤ t.length →
      (calcHints p t).isSome) ∧
    (∀ p t : List Peg, t.length < p.length → calcHints p t = none) :=
  ⟨calcHints_isSome, calcHints_fail⟩

/-- Witness for the amended C7: a one-peg guess is scored without error, a
five-peg guess crashes. -/
theorem calcHints_no_length_guard_w :
    (calcHints [Peg.red] [Peg.blue, Peg.red, Peg.green, Peg.yellow]).isSome ∧
    calcHints [Peg.red, Peg.red, Peg.red, Peg.red, Peg.red]
      [Peg.blue, Peg.red, Peg.green, Peg.yellow] = none :=
  ⟨calcHints_no_length_guard.1 _ _ (by decide) (by decide),
    calcHints_no_length_guard.2 _ _ (by decide)⟩

/-! ### The colour-only count as a multiset quantity -/

theorem firstFitCount_eq_sum :
    ∀ (gs sec : List Peg),
      firstFitCount gs sec
        = Finset.univ.sum fun c => min (gs.count c) (sec.count c)
  | [], sec => by simp [firstFitCount]
  | g :: gs, sec => by
    by_cases hg : g ∈ sec
    · have ih := firstFitCount_eq_sum gs (sec.erase g)
      simp only [firstFitCount, if_pos hg, ih]
      rw [← Finset.add_sum_erase _
        (fun c => min ((g :: gs).count c) (sec.count c)) (Finset.mem_univ g)]
      rw [← Finset.add_sum_erase _
        (fun c => min (gs.count c) ((sec.erase g).count c)) (Finset.mem_univ g)]
      have h1 : ∀ c ∈ Finset.univ.erase g,
          min (gs.count c) ((sec.erase g).count c)
            = min ((g :: gs).count c) (sec.count c) := by
        intro c hc
        have hcg : c ≠ g := (Finset.mem_erase.mp hc).1
        rw [List.count_cons_of_ne hcg, List.count_erase_of_ne hcg]
      rw [Finset.sum_congr rfl h1]
      have h2 : (sec.erase g).count g = sec.count g - 1 := List.count_erase_self g sec
      have h3 : 0 < sec.count g := List.count_pos_iff.mpr hg
      have h4 : (g :: gs).count g = gs.count g + 1 := List.count_cons_self g gs
      obtain ⟨m, hm⟩ : ∃ m, sec.count g = m + 1 := ⟨sec.count g - 1, by omega⟩
      rw [h2, h4, hm]
      simp only [Nat.add_sub_cancel]
      rw [Nat.succ_min_succ]
      omega
    · have h0 : sec.count g = 0 := List.count_eq_zero.mpr hg
      have ih := firstFitCount_eq_sum gs sec
      simp only [firstFitCount, if_neg hg, ih]
      apply Finset.sum_congr rfl
      intro c _
      by_cases hcg : c = g
      · subst hcg
        rw [h0]
        simp
      · rw [List.count_cons_of_ne hcg]

theorem remColors_spec :
    ∀ (p t : List Peg),
      remColors (specPass1 p t).2.2 t = nonExactSecret p t ∧
      remColors (specPass1 p t).2.1 p = nonExactGuess p t
  | [], t => by simp [specPass1, remColors, nonExactSecret, nonExactGuess]
  | p0 :: p, [] => by
    simp [specPass1, remColors, nonExactSecret, nonExactGuess]
  | p0 :: p, t0 :: t => by
    have ih := remColors_spec p t
    by_cases hpt : p0 = t0
    · constructor
      · simpa [specPass1, hpt, remColors, nonExactSecret] using ih.1
      · simpa [specPass1, hpt, remColors, nonExactGuess] using ih.2
    · constructor
      · simpa [specPass1, hpt, remColors, nonExactSecret] using ih.1
      · simpa [specPass1, hpt, remColors, nonExactGuess] using ih.2

theorem nonExactSecret_length :
    ∀ (p t : List Peg),
      (nonExactSecret p t).length
        = (p.zip t).countP fun x => !decide (x.1 = x.2)
  | [], t => by simp [nonExactSecret]
  | p0 :: p, [] => by simp [nonExactSecret]
  | p0 :: p, t0 :: t => by
    have ih := nonExactSecret_length p t
    simp only [nonExactSecret] at ih
    by_cases hpt : p0 = t0
    · simp [nonExactSecret, List.countP_cons, hpt, ih]
    · simp [nonExactSecret, List.countP_cons, hpt, ih]

theorem zip_countP_split :
    ∀ (l : List (Peg × Peg)),
      (l.countP fun x => decide (x.1 = x.2))
        + (l.countP fun x => !decide (x.1 = x.2)) = l.length
  | [] => rfl
  | x :: l => by
    have ih := zip_countP_split l
    by_cases hx : x.1 = x.2
    · simp [List.countP_cons, hx]
      omega
    · simp [List.countP_cons, hx]
      omega

/-- C8: on length-4 inputs the exact count depends only on which positions
agree, and the colour-only count depends only on the multisets of the
tokens left after removing the exact matches: two secret/guess pairs whose
exact-match positions agree and whose leftover secret tokens and leftover
guess tokens are respectively permutations of each other get identical
colour-only (and exact) counts from `Guess.calcHints`. -/
theorem colorOnly_multiset_invariant
    (p1 t1 p2 t2 : List Peg)
    (hp1 : p1.length = 4) (ht1 : t1.length = 4)
    (hp2 : p2.length = 4) (ht2 : t2.length = 4)
    (_hagree : ∀ i, i < 4 →
      ((p1.getD i Peg.red = t1.getD i Peg.red) ↔
        (p2.getD i Peg.red = t2.getD i Peg.red)))
    (hsec : (nonExactSecret p1 t1).Perm (nonExactSecret p2 t2))
    (hgss : (nonExactGuess p1 t1).Perm (nonExactGuess p2 t2)) :
    ∃ h1 h2, calcHints p1 t1 = some h1 ∧ calcHints p2 t2 = some h2 ∧
      h1.count Hint.rightColorWrongPlace = h2.count Hint.rightColorWrongPlace ∧
      h1.count Hint.rightColorRightPlace = h2.count Hint.rightColorRightPlace := by
  refine ⟨_, _, calcHints_spec p1 t1 hp1 ht1, calcHints_spec p2 t2 hp2 ht2, ?_, ?_⟩
  · rw [(hint_counts _ _).2.1, (hint_counts _ _).2.1]
    have e1 : (specScore p1 t1).2
        = firstFitCount (nonExactGuess p1 t1) (nonExactSecret p1 t1) := by
      rw [show (specScore p1 t1).2
          = (specPass2 p1 (specPass1 p1 t1).2.1 (specPass1 p1 t1).2.2 t1).1 from rfl]
      rw [specPass2_firstFit, (remColors_spec p1 t1).1, (remColors_spec p1 t1).2]
    have e2 : (specScore p2 t2).2
        = firstFitCount (nonExactGuess p2 t2) (nonExactSecret p2 t2) := by
      rw [show (specScore p2 t2).2
          = (specPass2 p2 (specPass1 p2 t2).2.1 (specPass1 p2 t2).2.2 t2).1 from rfl]
      rw [specPass2_firstFit, (remColors_spec p2 t2).1, (remColors_spec p2 t2).2]
    rw [e1, e2, firstFitCount_eq_sum, firstFitCount_eq_sum]
    apply Finset.sum_congr rfl
    intro c _
    rw [hgss.count_eq c, hsec.count_eq c]
  · rw [(hint_counts _ _).1, (hint_counts _ _).1]
    rw [show (specScore p1 t1).1
        = (p1.zip t1).countP (fun x => decide (x.1 = x.2)) from specPass1_fst p1 t1]
    rw [show (specScore p2 t2).1
        = (p2.zip t2).countP (fun x => decide (x.1 = x.2)) from specPass1_fst p2 t2]
    have s1 := zip_countP_split (p1.zip t1)
    have s2 := zip_countP_split (p2.zip t2)
    have n1 := nonExactSecret_length p1 t1
    have n2 := nonExactSecret_length p2 t2
    have hl := hsec.length_eq
    have hz1 : (p1.zip t1).length = 4 := by rw [List.length_zip]; omega
    have hz2 : (p2.zip t2).length = 4 := by rw [List.length_zip]; omega
    omega

/-- Witness for C8: two pairs with no exact matches and equal leftover
multisets arranged differently. -/
theorem colorOnly_multiset_invariant_w :
    ∃ h1 h2,
      calcHints [Peg.blue, Peg.red, Peg.yellow, Peg.green]
        [Peg.red, Peg.blue, Peg.green, Peg.yellow] = some h1 ∧
      calcHints [Peg.yellow, Peg.green, Peg.red, Peg.blue]
        [Peg.red, Peg.blue, Peg.green, Peg.yellow] = some h2 ∧
      h1.count Hint.rightColorWrongPlace = h2.count Hint.rightColorWrongPlace ∧
      h1.count Hint.rightColorRightPlace = h2.count Hint.rightColorRightPlace :=
  colorOnly_multiset_invariant _ _ _ _ (by decide) (by decide) (by decide)
    (by decide) (by decide) (by decide) (by decide)

/-! ### Behaviour of one `playRound` iteration -/

theorem playStep_cases (s : Mastermind) (gp : List Peg)
    (h4 : s.targetPegs.pegs.length = 4) (hg : gp.length = 4)
    (hn1 : 1 ≤ s.currGuessNum) (hnl : s.currGuessNum ≤ s.guesses.length)
    (old : Guess)
    (hslot : s.guesses[s.guesses.length - s.currGuessNum]? = some old)
    (hold : old.hints = []) :
    ∃ s', playStep s gp
        = some (s',
          if (specScore gp s.targetPegs.pegs).1 = 4 then Outcome.won
          else if s.totalGuesses < s.currGuessNum + 1 then Outcome.lost
          else Outcome.inProgress) ∧
      s'.targetPegs.pegs = s.targetPegs.pegs ∧
      s'.guesses = s.guesses.set (s.guesses.length - s.currGuessNum)
        ⟨gp, old.number,
          List.replicate (specScore gp s.targetPegs.pegs).1
              Hint.rightColorRightPlace ++
            List.replicate (specScore gp s.targetPegs.pegs).2
              Hint.rightColorWrongPlace⟩ ∧
      s'.currGuessNum = s.currGuessNum + 1 ∧
      s'.totalGuesses = s.totalGuesses ∧
      ((specScore gp s.targetPegs.pegs).1 = 4 ∨
          s.totalGuesses < s.currGuessNum + 1 →
        s'.isDone = true ∧ s'.targetPegs.revealPegs = true) ∧
      ((specScore gp s.targetPegs.pegs).1 ≠ 4 ∧
          ¬(s.totalGuesses < s.currGuessNum + 1) →
        s'.isDone = s.isDone ∧ s'.targetPegs.revealPegs = s.targetPegs.revealPegs) := by
  have hidx : pyNegIdx s.guesses.length s.currGuessNum
      = some (s.guesses.length - s.currGuessNum) := by
    unfold pyNegIdx
    rw [if_neg (by omega), if_pos hnl]
  have hch := calcHints_spec gp s.targetPegs.pegs hg h4
  have hcor := isCorrect_char gp old.number (specScore gp s.targetPegs.pegs).1
    (specScore gp s.targetPegs.pegs).2 hg (specScore_le _ _ hg h4)
  unfold playStep
  simp only [hidx, hslot, hch, hold, List.nil_append]
  by_cases h4e : (specScore gp s.targetPegs.pegs).1 = 4
  · have hct : Guess.isCorrect ⟨gp, old.number,
        List.replicate (specScore gp s.targetPegs.pegs).1 Hint.rightColorRightPlace ++
          List.replicate (specScore gp s.targetPegs.pegs).2 Hint.rightColorWrongPlace⟩
        = true := hcor.mpr h4e
    simp only [hct, if_pos h4e, if_true]
    exact ⟨_, rfl, rfl, rfl, rfl, rfl, fun _ => ⟨rfl, rfl⟩, fun hh => absurd h4e hh.1⟩
  · have hcf : Guess.isCorrect ⟨gp, old.number,
        List.replicate (specScore gp s.targetPegs.pegs).1 Hint.rightColorRightPlace ++
          List.replicate (specScore gp s.targetPegs.pegs).2 Hint.rightColorWrongPlace⟩
        = false := by
      cases hb : Guess.isCorrect ⟨gp, old.number,
          List.replicate (specScore gp s.targetPegs.pegs).1 Hint.rightColorRightPlace ++
            List.replicate (specScore gp s.targetPegs.pegs).2 Hint.rightColorWrongPlace⟩
      · rfl
      · exact absurd (hcor.mp hb) h4e
    simp only [hcf, Bool.false_eq_true, if_false, if_neg h4e]
    by_cases hbud : s.totalGuesses < s.currGuessNum + 1
    · simp only [if_pos hbud]
      exact ⟨_, rfl, rfl, rfl, rfl, rfl, fun _ => ⟨rfl, rfl⟩,
        fun hh => absurd hbud hh.2⟩
    · simp only [if_neg hbud]
      exact ⟨_, rfl, rfl, rfl, rfl, rfl,
        fun hh => by
          rcases hh with hh | hh
          · exact absurd hh h4e
          · exact absurd hh hbud,
        fun _ => ⟨rfl, rfl⟩⟩

/-- C4: a round step moves to the `Won` terminal state, with the reveal
flag set, exactly when the submitted length-4 guess's feedback has four
exact hints — decided by `Guess.isCorrect` in the win branch of
`playStep` — and this is independent of how many guesses remain in the
budget. -/
theorem playStep_won_iff (s : Mastermind) (gp : List Peg)
    (h4 : s.targetPegs.pegs.length = 4) (hg : gp.length = 4)
    (hn1 : 1 ≤ s.currGuessNum) (hnl : s.currGuessNum ≤ s.guesses.length)
    (old : Guess)
    (hslot : s.guesses[s.guesses.length - s.currGuessNum]? = some old)
    (hold : old.hints = []) :
    ∃ s' o h, playStep s gp = some (s', o) ∧
      calcHints gp s.targetPegs.pegs = some h ∧
      ((o = Outcome.won) ↔ h.count Hint.rightColorRightPlace = 4) ∧
      (o = Outcome.won → s'.isDone = true ∧ s'.targetPegs.revealPegs = true) := by
  obtain ⟨s', hstep, _, _, _, _, hdone, _⟩ :=
    playStep_cases s gp h4 hg hn1 hnl old hslot hold
  have ho_iff :
      ((if (specScore gp s.targetPegs.pegs).1 = 4 then Outcome.won
        else if s.totalGuesses < s.currGuessNum + 1 then Outcome.lost
        else Outcome.inProgress) = Outcome.won)
      ↔ (specScore gp s.targetPegs.pegs).1 = 4 := by
    by_cases h4e : (specScore gp s.targetPegs.pegs).1 = 4
    · simp [h4e]
    · rw [if_neg h4e]
      by_cases hbud : s.totalGuesses < s.currGuessNum + 1
      · simp [hbud, h4e]
      · simp [hbud, h4e]
  refine ⟨s', _, _, hstep, calcHints_spec gp s.targetPegs.pegs hg h4, ?_, ?_⟩
  · rw [(hint_counts _ _).1]
    exact ho_iff
  · intro ho
    exact hdone (Or.inl (ho_iff.mp ho))

/-- Witness for C4: a fresh round with the winning guess submitted. -/
theorem playStep_won_iff_w :
    ∃ s' o h, playStep (mkMastermind [Peg.red, Peg.blue, Peg.green, Peg.yellow])
        [Peg.red, Peg.blue, Peg.green, Peg.yellow] = some (s', o) ∧
      calcHints [Peg.red, Peg.blue, Peg.green, Peg.yellow]
        (mkMastermind [Peg.red, Peg.blue, Peg.green, Peg.yellow]).targetPegs.pegs
        = some h ∧
      ((o = Outcome.won) ↔ h.count Hint.rightColorRightPlace = 4) ∧
      (o = Outcome.won → s'.isDone = true ∧ s'.targetPegs.revealPegs = true) :=
  playStep_won_iff _ _ (by decide) (by decide) (by decide) (by decide)
    ⟨[], 1, []⟩ (by decide) rfl

/-! ### Short guesses win the round -/

theorem specPass1_self :
    ∀ (g r : List Peg),
      specPass1 g (g ++ r)
        = (g.length, List.replicate g.length true, List.replicate g.length true)
  | [], r => by simp [specPass1]
  | g0 :: g, r => by
    simp [specPass1, specPass1_self g r, List.replicate_succ]

theorem pass2_all_used (p t : List Peg) :
    ∀ (is : List Nat) (h : List Hint) (tk us : List Bool),
      (∀ i ∈ is, i < p.length ∧ us[i]? = some true) →
      pass2 p t is (h, tk, us) = some (h, tk) := by
  intro is
  induction is with
  | nil => intro h tk us _; rfl
  | cons i is ih =>
    intro h tk us hb
    obtain ⟨hip, hiu⟩ := hb i (List.mem_cons_self i is)
    have e1 : p[i]? = some p[i] := List.getElem?_eq_getElem hip
    simp only [pass2, e1, hiu, if_true]
    exact ih h tk us fun j hj => hb j (List.mem_cons_of_mem _ hj)

theorem calcHints_self_app (gp r : List Peg) (hlen : (gp ++ r).length = 4) :
    calcHints gp (gp ++ r)
      = some (List.replicate gp.length Hint.rightColorRightPlace) := by
  have hk : gp.length ≤ 4 := by
    rw [List.length_append] at hlen
    omega
  have h1 := pass1_sim gp (gp ++ r) gp (gp ++ r) [] [] [] [] []
    (List.replicate (4 - gp.length) false) (List.replicate (4 - gp.length) false)
    (by simp) (by simp) rfl rfl rfl (by rw [List.length_append]; omega)
  simp only [List.length_nil, List.nil_append] at h1
  rw [specPass1_self] at h1
  rw [← List.range_eq_range'] at h1
  have hmask : List.replicate gp.length false
      ++ List.replicate (4 - gp.length) false = [false, false, false, false] := by
    rw [← List.replicate_add, show gp.length + (4 - gp.length) = 4 by omega]
    rfl
  rw [hmask] at h1
  have hgetu : ∀ i ∈ List.range gp.length,
      i < gp.length ∧
        (List.replicate gp.length true
          ++ List.replicate (4 - gp.length) false)[i]? = some true := by
    intro i hi
    have hi' := List.mem_range.mp hi
    refine ⟨hi', ?_⟩
    rw [List.getElem?_append, if_pos (by simpa using hi'),
      List.getElem?_replicate, if_pos hi']
  have h2 := pass2_all_used gp (gp ++ r) (List.range gp.length)
    (List.replicate gp.length Hint.rightColorRightPlace)
    (List.replicate gp.length true ++ List.replicate (4 - gp.length) false)
    (List.replicate gp.length true ++ List.replicate (4 - gp.length) false)
    hgetu
  unfold calcHints
  simp only [h1, List.nil_append, h2]

/-- C9: `Guess.isCorrect` returns `True` for every guess whose hint count
equals its peg count with no colour-only hint among them — in particular
for an empty guess — and a guess of fewer than four pegs that exactly
matches the secret's first positions is judged a winning guess by the
round loop: `playStep` moves to `Won` on it. -/
theorem isCorrect_short_guess :
    (∀ g : Guess, g.hints.length = g.pegs.length →
      (∀ h ∈ g.hints, h ≠ Hint.rightColorWrongPlace) → g.isCorrect = true) ∧
    (∀ n : Nat, Guess.isCorrect ⟨[], n, []⟩ = true) ∧
    (∀ gp r : List Peg, gp.length < 4 → (gp ++ r).length = 4 →
      ∃ s', playStep (mkMastermind (gp ++ r)) gp = some (s', Outcome.won) ∧
        s'.isDone = true ∧ s'.targetPegs.revealPegs = true) := by
  refine ⟨?_, ?_, ?_⟩
  · intro g h1 h2
    unfold Guess.isCorrect
    rw [if_pos h1, List.all_eq_true]
    intro x hx
    simpa using h2 x hx
  · intro n
    rfl
  · intro gp r _ h4
    have hch := calcHints_self_app gp r h4
    have hidx : pyNegIdx (mkMastermind (gp ++ r)).guesses.length
        (mkMastermind (gp ++ r)).currGuessNum = some 11 := rfl
    have hslot : (mkMastermind (gp ++ r)).guesses[11]? = some ⟨[], 1, []⟩ := rfl
    have hpegs : (mkMastermind (gp ++ r)).targetPegs.pegs = gp ++ r := rfl
    have hcor : Guess.isCorrect
        ⟨gp, 1, List.replicate gp.length Hint.rightColorRightPlace⟩ = true := by
      unfold Guess.isCorrect
      rw [if_pos (by simp), List.all_eq_true]
      intro x hx
      have := List.eq_of_mem_replicate hx
      simp [this]
    unfold playStep
    simp only [hidx, hslot, hpegs, hch, List.nil_append, hcor, if_true]
    exact ⟨_, rfl, rfl, rfl⟩

/-- Witness for C9: a two-peg guess matching the secret's first two pegs
wins the round outright. -/
theorem isCorrect_short_guess_w :
    Guess.isCorrect ⟨[Peg.red], 7, [Hint.rightColorRightPlace]⟩ = true ∧
    Guess.isCorrect ⟨[], 3, []⟩ = true ∧
    ∃ s', playStep (mkMastermind ([Peg.red, Peg.blue] ++ [Peg.green, Peg.yellow]))
        [Peg.red, Peg.blue] = some (s', Outcome.won) ∧
      s'.isDone = true ∧ s'.targetPegs.revealPegs = true :=
  ⟨isCorrect_short_guess.1 _ rfl (by decide),
    isCorrect_short_guess.2.1 3,
    isCorrect_short_guess.2.2 _ _ (by decide) (by decide)⟩

/-! ### Exhausting the guess budget loses the round -/

theorem runRound_lost :
    ∀ (gs : List (List Peg)) (s : Mastermind),
      s.targetPegs.pegs.length = 4 →
      s.isDone = false →
      s.totalGuesses = 12 →
      s.guesses.length = 12 →
      1 ≤ s.currGuessNum →
      s.currGuessNum + gs.length = 13 →
      gs ≠ [] →
      (∀ j, j < 13 - s.currGuessNum →
        ∃ old, s.guesses[j]? = some old ∧ old.hints = []) →
      (∀ g ∈ gs, g.length = 4 ∧ (specScore g s.targetPegs.pegs).1 ≠ 4) →
      ∃ s', runRound s gs = some (s', Outcome.lost) ∧
        s'.isDone = true ∧ s'.targetPegs.revealPegs = true := by
  intro gs
  induction gs with
  | nil =>
    intro s _ _ _ _ _ _ hne _
    exact absurd rfl hne
  | cons g gs ih =>
    intro s h4 hdone htot hglen hn1 hcount hne hslots hguess
    simp only [List.length_cons] at hcount
    obtain ⟨old, hslot, hold⟩ := hslots (12 - s.currGuessNum) (by omega)
    have hslot' : s.guesses[s.guesses.length - s.currGuessNum]? = some old := by
      rw [hglen]
      exact hslot
    obtain ⟨hg4, hge⟩ := hguess g (List.mem_cons_self g gs)
    obtain ⟨s', hstep, hpegs, hguesses, hnum, htot', hdone', hkeep⟩ :=
      playStep_cases s g h4 hg4 hn1 (by omega) old hslot' hold
    rw [if_neg hge] at hstep
    by_cases hlast : gs = []
    · subst hlast
      have hbud : s.totalGuesses < s.currGuessNum + 1 := by
        simp only [List.length_nil] at hcount
        omega
      rw [if_pos hbud] at hstep
      obtain ⟨hD, hR⟩ := hdone' (Or.inr hbud)
      simp only [runRound, hstep, hD, if_true]
      exact ⟨s', rfl, hD, hR⟩
    · have hbud : ¬(s.totalGuesses < s.currGuessNum + 1) := by
        have := List.length_pos.mpr hlast
        omega
      rw [if_neg hbud] at hstep
      obtain ⟨hD, hR⟩ := hkeep ⟨hge, hbud⟩
      have hDf : s'.isDone = false := by rw [hD, hdone]
      simp only [runRound, hstep, hDf, Bool.false_eq_true, if_false]
      apply ih s'
      · rw [hpegs]
        exact h4
      · exact hDf
      · rw [htot']
        exact htot
      · rw [hguesses, List.length_set]
        exact hglen
      · omega
      · omega
      · exact hlast
      · intro j hj
        rw [hnum] at hj
        rw [hguesses]
        rw [List.getElem?_set_ne (by rw [hglen]; omega)]
        exact hslots j (by omega)
      · intro g' hg'
        rw [hpegs]
        exact hguess g' (List.mem_cons_of_mem _ hg')

/-- C5: a fresh round (budget constant 12) fed twelve length-4 guesses none
of which scores four exact hints ends in the `Lost` terminal state with the
reveal flag set. -/
theorem twelve_misses_lost (secret : List Peg) (gs : List (List Peg))
    (hs : secret.length = 4) (h12 : gs.length = 12)
    (hmiss : ∀ g ∈ gs, g.length = 4 ∧ (specScore g secret).1 ≠ 4) :
    (mkMastermind secret).totalGuesses = 12 ∧
    ∃ s', runRound (mkMastermind secret) gs = some (s', Outcome.lost) ∧
      s'.isDone = true ∧ s'.targetPegs.revealPegs = true := by
  refine ⟨rfl, ?_⟩
  have hcg : (mkMastermind secret).currGuessNum = 1 := rfl
  apply runRound_lost gs (mkMastermind secret) hs rfl rfl rfl Nat.le.refl
    (by rw [hcg, h12]) (by intro h; rw [h] at h12; simp at h12)
  · intro j hj
    rw [hcg] at hj
    have hj' : j < 12 := by omega
    refine ⟨⟨[], 12 - j, []⟩, ?_, rfl⟩
    show ((List.range 12).map fun i => (⟨[], 12 - i, []⟩ : Guess))[j]?
      = some ⟨[], 12 - j, []⟩
    rw [List.getElem?_map, List.getElem?_range hj']
    rfl
  · intro g hg
    exact hmiss g hg

/-- Witness for C5: twelve all-white guesses against a secret containing no
white peg lose the round. -/
theorem twelve_misses_lost_w :
    (mkMastermind [Peg.red, Peg.blue, Peg.green, Peg.yellow]).totalGuesses = 12 ∧
    ∃ s', runRound (mkMastermind [Peg.red, Peg.blue, Peg.green, Peg.yellow])
        (List.replicate 12 [Peg.white, Peg.white, Peg.white, Peg.white])
        = some (s', Outcome.lost) ∧
      s'.isDone = true ∧ s'.targetPegs.revealPegs = true :=
  twelve_misses_lost _ _ (by decide) (by decide) (by decide)

/-- C10: the reveal operation only sets the reveal flag.  `setRevealPegs`
leaves the secret pegs unchanged, and processing the player's `"SHOW"`
command leaves the guess history, the guess counter, the done flag and the
budget unchanged while producing no guess (so no guess is consumed). -/
theorem setRevealPegs_frame (s : Mastermind) :
    (s.targetPegs.setRevealPegs).pegs = s.targetPegs.pegs ∧
    (s.targetPegs.setRevealPegs).revealPegs = true ∧
    (getPlayerGuessStep s "SHOW").2 = none ∧
    (getPlayerGuessStep s "SHOW").1.targetPegs.pegs = s.targetPegs.pegs ∧
    (getPlayerGuessStep s "SHOW").1.targetPegs.revealPegs = true ∧
    (getPlayerGuessStep s "SHOW").1.guesses = s.guesses ∧
    (getPlayerGuessStep s "SHOW").1.currGuessNum = s.currGuessNum ∧
    (getPlayerGuessStep s "SHOW").1.isDone = s.isDone ∧
    (getPlayerGuessStep s "SHOW").1.totalGuesses = s.totalGuesses := by
  have hdec : getPegsFromGuess ['S', 'H', 'O', 'W'] = none := rfl
  unfold getPlayerGuessStep
  rw [if_pos rfl]
  simp [hdec, TargetPegs.setRevealPegs]

/-- C6 evaluation: the program performs no guess-length validation.  The
two-character input `"RU"` decodes to a length-2 peg list, the prompt loop
accepts it, scoring it mutates the guess slot (two exact hints are
recorded) and in fact wins the round; a five-peg guess crashes scoring with
an uncaught `IndexError` (modelled `none`).  No `InvalidGuessLength` error
exists anywhere in the code. -/
theorem wrong_length_guess_accepted :
    getPegsFromGuess "RU".toList = some [Peg.red, Peg.blue] ∧
    ([Peg.red, Peg.blue] : List Peg).length ≠ 4 ∧
    (getPlayerGuessStep (mkMastermind [Peg.red, Peg.blue, Peg.green, Peg.yellow])
        "RU").2 = some [Peg.red, Peg.blue] ∧
    ((playStep (mkMastermind [Peg.red, Peg.blue, Peg.green, Peg.yellow])
        [Peg.red, Peg.blue]).map Prod.snd) = some Outcome.won ∧
    ((playStep (mkMastermind [Peg.red, Peg.blue, Peg.green, Peg.yellow])
        [Peg.red, Peg.blue]).map fun x => x.1.guesses[11]?)
      = some (some ⟨[Peg.red, Peg.blue], 1,
          [Hint.rightColorRightPlace, Hint.rightColorRightPlace]⟩) ∧
    calcHints [Peg.red, Peg.red, Peg.red, Peg.red, Peg.red]
      [Peg.red, Peg.blue, Peg.green, Peg.yellow] = none := by decide
